import Mathlib

/-!
# FMV Tracker — verification of the ETL core (`src/etl/prepare_data.py`)

Shallow embedding of the data-cleaning pipeline of the FMV Tracker
repository.  Tables are lists of named columns of cells; the Python/pandas
string and numeric operations used by the source are modelled as total
Lean functions over `List Char` / `String`, restricted to the ASCII
behaviour the pipeline exercises.
-/

namespace FMV

/-! ## Character-level models of Python string primitives -/

/-- Whitespace characters recognised by Python's `str.strip` and the regex
class `\s`, restricted to ASCII: space, tab, newline, carriage return,
vertical tab, form feed. -/
def isSpaceChar (c : Char) : Bool :=
  c.toNat == 32 || c.toNat == 9 || c.toNat == 10 ||
  c.toNat == 13 || c.toNat == 11 || c.toNat == 12

/-- ASCII model of Python `str.lower` on one character. -/
def pyLowerChar (c : Char) : Char :=
  if 65 ≤ c.toNat ∧ c.toNat ≤ 90 then Char.ofNat (c.toNat + 32) else c

/-- ASCII model of Python `str.upper` on one character. -/
def pyUpperChar (c : Char) : Char :=
  if 97 ≤ c.toNat ∧ c.toNat ≤ 122 then Char.ofNat (c.toNat - 32) else c

/-- The character class `[a-z0-9_]` of `normalize_colname`'s keep-regex. -/
def isAllowedChar (c : Char) : Bool :=
  (97 ≤ c.toNat && c.toNat ≤ 122) || (48 ≤ c.toNat && c.toNat ≤ 57) ||
  c.toNat == 95

/-- Drop a maximal trailing run of characters satisfying `p`
(the right half of Python's `str.strip`). -/
def dropTrailing (p : Char → Bool) : List Char → List Char
  | [] => []
  | c :: cs =>
    let t := dropTrailing p cs
    if t.isEmpty && p c then [] else c :: t

/-- Python `str.strip(chars)` on a character list: drop maximal leading and
trailing runs of characters satisfying `p`. -/
def stripList (p : Char → Bool) (l : List Char) : List Char :=
  dropTrailing p (l.dropWhile p)

/-- `re.sub(p+, r, ·)`: replace each maximal nonempty run of characters
satisfying `p` by the single character `r`. -/
def collapseRuns (p : Char → Bool) (r : Char) : List Char → List Char
  | [] => []
  | [c] => if p c then [r] else [c]
  | c :: d :: cs =>
    if p c then
      if p d then collapseRuns p r (d :: cs)
      else r :: collapseRuns p r (d :: cs)
    else c :: collapseRuns p r (d :: cs)

/-! ## `normalize_colname` (prepare_data.py lines 22–27) -/

/-- `normalize_colname` on a character list, applied inside-out:
`strip` whitespace, lowercase, `re.sub(r"\s+", "_")`,
`re.sub(r"[^a-z0-9_]+", "")`, `re.sub(r"_+", "_")`, `strip("_")`. -/
def normalizeColList (l : List Char) : List Char :=
  stripList (fun c => c == '_')
    (collapseRuns (fun c => c == '_') '_'
      (List.filter isAllowedChar
        (collapseRuns isSpaceChar '_'
          (List.map pyLowerChar (stripList isSpaceChar l)))))

/-- `normalize_colname(name)` from the source. -/
def normalize_colname (s : String) : String :=
  ⟨normalizeColList s.toList⟩

/-! ## Cells and tables

A pandas `DataFrame` is modelled as an ordered list of named columns.
Cell values carry the float semantics the pipeline relies on: `missing`
stands for `NaN`/`NaT`, `inf`/`ninf` for the IEEE infinities produced by
float division.  Column access and assignment model the unique-label case
(pandas raises on duplicate-label item access, which no cleaner reaches
on well-formed input). -/

inductive Cell where
  | str (s : String)
  | num (q : ℚ)
  | inf
  | ninf
  | date (y m d : Nat)
  | missing
  deriving DecidableEq, Repr

/-- Model of pandas `Series.astype(str)` on one cell.  Missing values
stringify to `"nan"`; numbers and dates use a fixed rendering (the claims
below only ever stringify strings and missing cells). -/
def cellToStr : Cell → String
  | .str s => s
  | .num q => toString q
  | .inf => "inf"
  | .ninf => "-inf"
  | .date y m d => toString y ++ "-" ++ toString m ++ "-" ++ toString d ++ " 00:00:00"
  | .missing => "nan"

structure DF where
  cols : List (String × List Cell)
  deriving DecidableEq, Repr

def DF.names (df : DF) : List String :=
  df.cols.map Prod.fst

/-- `c in df.columns`. -/
def DF.hasCol (df : DF) (c : String) : Bool :=
  df.cols.any (fun p => p.1 == c)

/-- `df[c]` (first column of that label; all labels are distinct on the
tables the pipeline reads). -/
def DF.getCol (df : DF) (c : String) : List Cell :=
  ((df.cols.find? (fun p => p.1 == c)).map Prod.snd).getD []

/-- `df[c] = vs`: replace the column in place when the label exists,
otherwise append a new column on the right. -/
def DF.setCol (df : DF) (c : String) (vs : List Cell) : DF :=
  if df.hasCol c then ⟨df.cols.map (fun p => if p.1 == c then (c, vs) else p)⟩
  else ⟨df.cols ++ [(c, vs)]⟩

/-- `if c in df.columns: df[c] = df[c].map f` — the guarded per-column
update pattern every cleaning step uses. -/
def DF.mapCol (df : DF) (c : String) (f : Cell → Cell) : DF :=
  if df.hasCol c then df.setCol c ((df.getCol c).map f) else df

/-! ## `normalize_columns` / `apply_aliases` (lines 30–43) -/

def normalize_columns (df : DF) : DF :=
  ⟨df.cols.map (fun p => (normalize_colname p.1, p.2))⟩

/-- `{normalize_colname(k): normalize_colname(v) for k, v in aliases.items()}`,
kept as an association list in insertion order. -/
def renameMap (aliases : List (String × String)) : List (String × String) :=
  aliases.map (fun p => (normalize_colname p.1, normalize_colname p.2))

/-- Python `dict` lookup on an insertion-ordered association list: a later
binding of the same key overwrites an earlier one. -/
def lookupLast (m : List (String × String)) (k : String) : Option String :=
  (m.reverse.find? (fun p => p.1 == k)).map Prod.snd

/-- `dict.get(k, k)` — first (and only) binding wins; used for the estado
synonym table whose keys are distinct. -/
def lookupFirst (m : List (String × String)) (k : String) : Option String :=
  (m.find? (fun p => p.1 == k)).map Prod.snd

/-- `apply_aliases`: normalize all column labels, then rename each through
`rename_map.get(c, c)`.  `df.rename` maps labels independently, so two
columns may end up with the same label (pandas keeps both). -/
def apply_aliases (df : DF) (aliases : List (String × String)) : DF :=
  let ndf := normalize_columns df
  let rm := renameMap aliases
  ⟨ndf.cols.map (fun p => ((lookupLast rm p.1).getD p.1, p.2))⟩

/-! ## `clean_text` (lines 46–54) -/

/-- One cell of `clean_text`: `astype(str).str.strip()
.str.replace(r"\s+", " ", regex=True)`, optionally `.str.upper()`. -/
def cleanTextCell (upper : Bool) (c : Cell) : Cell :=
  let l := collapseRuns isSpaceChar ' ' (stripList isSpaceChar (cellToStr c).toList)
  Cell.str (if upper then ⟨l.map pyUpperChar⟩ else ⟨l⟩)

def clean_text (df : DF) (col : String) (upper : Bool) : DF :=
  df.mapCol col (cleanTextCell upper)

/-! ## `coerce_date` (lines 57–62) -/

/-- Digit-string value. -/
def digitsVal (l : List Char) : Nat :=
  l.foldl (fun n c => 10 * n + (c.toNat - 48)) 0

def validYMD (y m d : Nat) : Bool :=
  1 ≤ y && 1 ≤ m && m ≤ 12 && 1 ≤ d && d ≤ 31

/-- Split a character list at every occurrence of `sep`
(like `str.split(sep)`: `n` separators yield `n + 1` fields). -/
def splitOnChar (sep : Char) : List Char → List (List Char)
  | [] => [[]]
  | c :: cs =>
    let r := splitOnChar sep cs
    if c == sep then [] :: r
    else
      match r with
      | [] => [[c]]
      | t :: ts => (c :: t) :: ts

/-- A nonempty field of decimal digits, read as a number. -/
def parseNatField (l : List Char) : Option Nat :=
  if l ≠ [] ∧ l.all Char.isDigit then some (digitsVal l) else none

/-- Model of pandas permissive date parsing (`pd.to_datetime`), restricted
to the slash (`M/D/Y`, falling back to `D/M/Y`) and dash (`Y-M-D`) forms;
anything else — including the empty string — is unparseable. -/
def parseDate (s : String) : Option (Nat × Nat × Nat) :=
  match splitOnChar '/' s.toList with
  | [a, b, c] =>
    match parseNatField a, parseNatField b, parseNatField c with
    | some x, some y, some z =>
      if validYMD z x y then some (z, x, y)
      else if validYMD z y x then some (z, y, x)
      else none
    | _, _, _ => none
  | _ =>
    match splitOnChar '-' s.toList with
    | [a, b, c] =>
      match parseNatField a, parseNatField b, parseNatField c with
      | some y, some m, some d => if validYMD y m d then some (y, m, d) else none
      | _, _, _ => none
    | _ => none

/-- One cell of `pd.to_datetime(·, errors="coerce")`: strings parse or
become missing (`NaT`); dates pass through; everything else is out of the
modelled scope and becomes missing. -/
def coerceDateCell : Cell → Cell
  | .str s =>
    match parseDate s with
    | some (y, m, d) => Cell.date y m d
    | none => Cell.missing
  | .date y m d => Cell.date y m d
  | _ => Cell.missing

def coerce_date (df : DF) (col : String) : DF :=
  df.mapCol col coerceDateCell

/-! ## `to_number` (lines 65–91) -/

/-- Model of `pd.to_numeric` on the sanitized residue: an optional leading
minus sign, then digits with at most one period and at least one digit;
anything else fails.  Returns the sign, integer part, fractional part and
fractional length; `ratOfParts` assembles the rational value. -/
def parseNumParts (l : List Char) : Option (Bool × Nat × Nat × Nat) :=
  let (neg, l) := match l with
    | '-' :: t => (true, t)
    | _ => (false, l)
  match l.splitOn '.' with
  | [ip] =>
    if ip ≠ [] ∧ ip.all Char.isDigit then some (neg, digitsVal ip, 0, 0) else none
  | [ip, fp] =>
    if (ip ++ fp) ≠ [] ∧ (ip ++ fp).all Char.isDigit then
      some (neg, digitsVal ip, digitsVal fp, fp.length)
    else none
  | _ => none

/-- The rational value `±(ip + fp / 10^k)` denoted by a parsed numeral. -/
def ratOfParts : Bool × Nat × Nat × Nat → ℚ
  | (neg, ip, fp, k) =>
    let q := (ip : ℚ) + (fp : ℚ) / (10 : ℚ) ^ k
    if neg then -q else q

/-- The string stage of `to_number` on one cell's text: strip, drop every
character outside `[\d\-,\.]`, apply the comma/period heuristic of the
source, and read off the numeral parts. -/
def toNumberParts (raw : String) : Option (Bool × Nat × Nat × Nat) :=
  let l := stripList isSpaceChar raw.toList
  let l := l.filter (fun c => c.isDigit || c == '-' || c == ',' || c == '.')
  let hasComma := l.contains ','
  let hasDot := l.contains '.'
  let l :=
    if hasComma && !hasDot then
      (l.filter (fun c => !(c == '.'))).map (fun c => if c == ',' then '.' else c)
    else if hasComma && hasDot then
      l.filter (fun c => !(c == ','))
    else l
  parseNumParts l

/-- `to_number` on one string: `pd.to_numeric(·, errors="coerce")` after
the sanitizing heuristic. -/
def toNumberStr (raw : String) : Option ℚ :=
  (toNumberParts raw).map ratOfParts

/-- `to_number` on one cell.  Numeric cells round-trip through
`astype(str)` unchanged; missing stringifies to `"nan"` whose sanitized
residue is empty, hence stays missing; stringified dates and infinities
fail to parse. -/
def toNumberCell : Cell → Cell
  | .num q => .num q
  | .str s =>
    match toNumberStr s with
    | some q => .num q
    | none => .missing
  | _ => .missing

def to_number (s : List Cell) : List Cell :=
  s.map toNumberCell

/-! ## Cell arithmetic (pandas float semantics)

The derived-field computations subtract, divide and scale Series whose
cells are `to_number` outputs: finite numbers, `NaN` (= `missing`) or —
after a division by zero — infinities.  `missing` propagates like `NaN`;
the string/date constructors never reach these operators inside
`clean_lines` and are absorbed as `missing`. -/

def cellSub : Cell → Cell → Cell
  | .num a, .num b => .num (a - b)
  | .num _, .inf => .ninf
  | .num _, .ninf => .inf
  | .inf, .num _ => .inf
  | .ninf, .num _ => .ninf
  | .inf, .ninf => .inf
  | .ninf, .inf => .ninf
  | _, _ => .missing

def cellDiv : Cell → Cell → Cell
  | .num a, .num b =>
    if b = 0 then
      if 0 < a then .inf else if a < 0 then .ninf else .missing
    else .num (a / b)
  | .num _, .inf => .num 0
  | .num _, .ninf => .num 0
  | .inf, .num b => if b < 0 then .ninf else .inf
  | .ninf, .num b => if b < 0 then .inf else .ninf
  | _, _ => .missing

def cellMul100 : Cell → Cell
  | .num a => .num (a * 100)
  | .inf => .inf
  | .ninf => .ninf
  | _ => .missing

/-- One row of `(df["monto_utilizado"] / df["monto_aprobado"]) * 100`. -/
def usoPctCell (mu ma : Cell) : Cell :=
  cellMul100 (cellDiv mu ma)

/-! ## Dataset cleaners (lines 96–224) -/

def linesAliases : List (String × String) :=
  [("entidad", "esfs"), ("institucion", "esfs"), ("banco", "esfs"),
   ("tipo", "tipo_linea"), ("linea", "tipo_linea"),
   ("monto", "monto_aprobado"), ("monto_linea", "monto_aprobado"),
   ("saldo", "saldo_disponible"), ("saldo_linea", "saldo_disponible"),
   ("vigencia", "fecha_vigencia"), ("fecha_vencimiento", "fecha_vigencia")]

/-- `clean_lines` up to (and including) the numeric parsing loop:
aliasing, text cleaning, date coercion, then
`for c in ["monto_aprobado", "saldo_disponible", "monto_utilizado"]:
if c in df.columns: df[c] = to_number(df[c])`. -/
def clean_lines_pre (df : DF) : DF :=
  let df := apply_aliases df linesAliases
  let df := clean_text df "esfs" true
  let df := clean_text df "tipo_linea" false
  let df := coerce_date df "fecha_vigencia"
  let df := df.mapCol "monto_aprobado" toNumberCell
  let df := df.mapCol "saldo_disponible" toNumberCell
  df.mapCol "monto_utilizado" toNumberCell

/-- The derived-field block of `clean_lines` (lines 129–134): inside
`if "monto_aprobado" in df.columns`, derive `monto_utilizado` when absent
and both operands are present, then compute `uso_pct` when
`monto_utilizado` is present. -/
def clean_lines_derive (df : DF) : DF :=
  if df.hasCol "monto_aprobado" then
    let df :=
      if df.hasCol "saldo_disponible" && !df.hasCol "monto_utilizado" then
        df.setCol "monto_utilizado"
          (List.zipWith cellSub (df.getCol "monto_aprobado") (df.getCol "saldo_disponible"))
      else df
    if df.hasCol "monto_utilizado" then
      df.setCol "uso_pct"
        (List.zipWith usoPctCell (df.getCol "monto_utilizado") (df.getCol "monto_aprobado"))
    else df
  else df

def clean_lines (df : DF) : DF :=
  clean_lines_derive (clean_lines_pre df)

def disbursementsAliases : List (String × String) :=
  [("institucion", "ifi"), ("institucion_financiera", "ifi"),
   ("monto", "monto_desembolso"), ("desembolso", "monto_desembolso"),
   ("importe", "monto_desembolso")]

def clean_disbursements (df : DF) : DF :=
  let df := apply_aliases df disbursementsAliases
  let df := clean_text df "ifi" true
  let df := coerce_date df "fecha"
  df.mapCol "monto_desembolso" toNumberCell

def splaftAliases : List (String × String) :=
  [("entidad", "esfs"), ("institucion", "esfs"),
   ("fecha", "fecha_actualizacion"), ("actualizacion", "fecha_actualizacion")]

def estadoSynonyms : List (String × String) :=
  [("enviado", "recibido"), ("ok", "aprobado"),
   ("aprobada", "aprobado"), ("observada", "observado")]

/-- One cell of the estado standardization:
`astype(str).str.strip().str.lower()` then `Series.replace` with the fixed
synonym dictionary (whole-value match, unmatched values unchanged). -/
def estadoCanonCell (c : Cell) : Cell :=
  let s : String := ⟨(stripList isSpaceChar (cellToStr c).toList).map pyLowerChar⟩
  Cell.str ((lookupFirst estadoSynonyms s).getD s)

def clean_splaft (df : DF) : DF :=
  let df := apply_aliases df splaftAliases
  let df := clean_text df "esfs" true
  let df := clean_text df "documento" false
  let df := clean_text df "estado" false
  let df := coerce_date df "fecha_actualizacion"
  if df.hasCol "estado" then
    df.setCol "estado" ((df.getCol "estado").map estadoCanonCell)
  else df

def contactsAliases : List (String × String) :=
  [("entidad", "institucion"), ("esfs", "institucion"), ("ifi", "institucion"),
   ("mail", "correo"), ("email", "correo"),
   ("celular", "telefono"), ("telefono_contacto", "telefono"),
   ("fecha", "ultima_actualizacion")]

def clean_contacts (df : DF) : DF :=
  let df := apply_aliases df contactsAliases
  let df := clean_text df "institucion" true
  let df := clean_text df "nombre" false
  let df := clean_text df "cargo" false
  let df := clean_text df "correo" false
  let df := clean_text df "telefono" false
  coerce_date df "ultima_actualizacion"

/-! ## Table lemmas: how `setCol`/`mapCol` act on names and columns -/

/-- The in-place replacement `setCol` performs when the label exists. -/
def replaceCol (c : String) (vs : List Cell) (l : List (String × List Cell)) :
    List (String × List Cell) :=
  l.map (fun p => if p.1 == c then (c, vs) else p)

theorem fst_replaceCol_entry (c : String) (vs : List Cell) (p : String × List Cell) :
    (if p.1 == c then (c, vs) else p).1 = p.1 := by
  by_cases h : (p.1 == c) = true
  · have : p.1 = c := by simpa using h
    simp [h, this]
  · simp [h]

theorem any_replaceCol (c c' : String) (vs : List Cell) (l : List (String × List Cell)) :
    (replaceCol c vs l).any (fun p => p.1 == c') = l.any (fun p => p.1 == c') := by
  induction l with
  | nil => rfl
  | cons p ps ih =>
    simp only [replaceCol, List.map_cons, List.any_cons] at *
    rw [fst_replaceCol_entry, ih]

theorem replaceCol_cons (c : String) (vs : List Cell) (p : String × List Cell)
    (ps : List (String × List Cell)) :
    replaceCol c vs (p :: ps) =
      (if p.1 == c then (c, vs) else p) :: replaceCol c vs ps := rfl

theorem find?_replaceCol_self (c : String) (vs : List Cell)
    (l : List (String × List Cell)) (h : l.any (fun p => p.1 == c) = true) :
    (replaceCol c vs l).find? (fun p => p.1 == c) = some (c, vs) := by
  induction l with
  | nil => simp at h
  | cons p ps ih =>
    rw [replaceCol_cons]
    by_cases hc : (p.1 == c) = true
    · rw [if_pos hc]
      exact List.find?_cons_of_pos _ (by simp)
    · rw [if_neg hc, List.find?_cons_of_neg _ (by simpa using hc)]
      simp only [List.any_cons, hc, Bool.false_or] at h
      exact ih h

theorem find?_replaceCol_ne (c c' : String) (vs : List Cell) (hne : c' ≠ c)
    (l : List (String × List Cell)) :
    (replaceCol c vs l).find? (fun p => p.1 == c') = l.find? (fun p => p.1 == c') := by
  induction l with
  | nil => rfl
  | cons p ps ih =>
    rw [replaceCol_cons]
    by_cases hc' : (p.1 == c') = true
    · have hp1 : p.1 = c' := by simpa using hc'
      have hc : (p.1 == c) = false := by simp [hp1, hne]
      rw [if_neg (by simp [hc])]
      exact (List.find?_cons_of_pos (p := fun q : String × List Cell => q.1 == c') _ hc').trans
        (List.find?_cons_of_pos (p := fun q : String × List Cell => q.1 == c') _ hc').symm
    · have hfst : ((if p.1 == c then (c, vs) else p).1 == c') = false := by
        rw [fst_replaceCol_entry]
        simpa using hc'
      rw [List.find?_cons_of_neg _ (by simpa using hfst),
        List.find?_cons_of_neg _ (by simpa using hc'), ih]

theorem DF.setCol_eq_replace (df : DF) (c : String) (vs : List Cell)
    (h : df.hasCol c = true) :
    df.setCol c vs = ⟨replaceCol c vs df.cols⟩ := by
  simp [DF.setCol, h, replaceCol]

theorem DF.setCol_eq_append (df : DF) (c : String) (vs : List Cell)
    (h : df.hasCol c = false) :
    df.setCol c vs = ⟨df.cols ++ [(c, vs)]⟩ := by
  simp [DF.setCol, h]

theorem DF.hasCol_setCol (df : DF) (c c' : String) (vs : List Cell) :
    (df.setCol c vs).hasCol c' = (df.hasCol c' || (c == c')) := by
  by_cases h : df.hasCol c = true
  · rw [DF.setCol_eq_replace df c vs h]
    show (replaceCol c vs df.cols).any _ = _
    rw [any_replaceCol]
    by_cases hcc : (c == c') = true
    · have hcc' : c = c' := by simpa using hcc
      subst hcc'
      simp [DF.hasCol] at h ⊢
      simp [h, hcc]
    · simp [DF.hasCol, hcc]
  · rw [DF.setCol_eq_append df c vs (by simpa using h)]
    show (df.cols ++ [(c, vs)]).any _ = _
    simp [List.any_append, DF.hasCol]

theorem DF.getCol_setCol_self (df : DF) (c : String) (vs : List Cell) :
    (df.setCol c vs).getCol c = vs := by
  by_cases h : df.hasCol c = true
  · rw [DF.setCol_eq_replace df c vs h]
    show ((((replaceCol c vs df.cols).find? _).map Prod.snd).getD []) = vs
    rw [find?_replaceCol_self c vs df.cols h]
    rfl
  · rw [DF.setCol_eq_append df c vs (by simpa using h)]
    show ((((df.cols ++ [(c, vs)]).find? _).map Prod.snd).getD []) = vs
    have hnone : df.cols.find? (fun p => p.1 == c) = none := by
      rw [List.find?_eq_none]
      intro p hp hpc
      have : df.hasCol c = true := by
        simp only [DF.hasCol, List.any_eq_true]
        exact ⟨p, hp, hpc⟩
      simp [this] at h
    rw [List.find?_append, hnone]
    simp [List.find?_cons]

theorem DF.getCol_setCol_ne (df : DF) (c c' : String) (vs : List Cell) (hne : c' ≠ c) :
    (df.setCol c vs).getCol c' = df.getCol c' := by
  by_cases h : df.hasCol c = true
  · rw [DF.setCol_eq_replace df c vs h]
    show ((((replaceCol c vs df.cols).find? _).map Prod.snd).getD []) = _
    rw [find?_replaceCol_ne c c' vs hne df.cols]
    rfl
  · rw [DF.setCol_eq_append df c vs (by simpa using h)]
    show ((((df.cols ++ [(c, vs)]).find? _).map Prod.snd).getD []) = _
    have : ((c, vs).1 == c') = false := by
      simp only [beq_eq_false_iff_ne, ne_eq]
      exact fun hq => hne hq.symm
    rw [List.find?_append]
    simp [List.find?_cons, this, DF.getCol]

theorem DF.hasCol_mapCol (df : DF) (c c' : String) (f : Cell → Cell) :
    (df.mapCol c f).hasCol c' = df.hasCol c' := by
  unfold DF.mapCol
  by_cases h : df.hasCol c = true
  · rw [if_pos h, DF.hasCol_setCol]
    by_cases hcc : (c == c') = true
    · have : c = c' := by simpa using hcc
      subst this
      simp [h, hcc]
    · simp [hcc]
  · rw [if_neg (by simp [h])]

theorem DF.getCol_mapCol_self (df : DF) (c : String) (f : Cell → Cell)
    (h : df.hasCol c = true) :
    (df.mapCol c f).getCol c = (df.getCol c).map f := by
  unfold DF.mapCol
  rw [if_pos h, DF.getCol_setCol_self]

theorem DF.getCol_mapCol_ne (df : DF) (c c' : String) (f : Cell → Cell) (hne : c' ≠ c) :
    (df.mapCol c f).getCol c' = df.getCol c' := by
  unfold DF.mapCol
  by_cases h : df.hasCol c = true
  · rw [if_pos h, DF.getCol_setCol_ne _ _ _ _ hne]
  · rw [if_neg (by simp [h])]

theorem DF.mapCol_absent (df : DF) (c : String) (f : Cell → Cell)
    (h : df.hasCol c = false) :
    df.mapCol c f = df := by
  unfold DF.mapCol
  rw [if_neg (by simp [h])]

/-! ## The `clean_lines` pipeline before derivation -/

theorem hasCol_clean_lines_pre (df : DF) (x : String) :
    (clean_lines_pre df).hasCol x = (apply_aliases df linesAliases).hasCol x := by
  unfold clean_lines_pre clean_text coerce_date
  simp only [DF.hasCol_mapCol]

theorem getCol_clean_lines_pre_ma (df : DF)
    (h : (apply_aliases df linesAliases).hasCol "monto_aprobado" = true) :
    (clean_lines_pre df).getCol "monto_aprobado"
      = ((apply_aliases df linesAliases).getCol "monto_aprobado").map toNumberCell := by
  unfold clean_lines_pre clean_text coerce_date
  rw [DF.getCol_mapCol_ne _ _ _ _ (by decide), DF.getCol_mapCol_ne _ _ _ _ (by decide),
    DF.getCol_mapCol_self _ _ _ (by simpa only [DF.hasCol_mapCol] using h),
    DF.getCol_mapCol_ne _ _ _ _ (by decide), DF.getCol_mapCol_ne _ _ _ _ (by decide),
    DF.getCol_mapCol_ne _ _ _ _ (by decide)]

theorem getCol_clean_lines_pre_saldo (df : DF)
    (h : (apply_aliases df linesAliases).hasCol "saldo_disponible" = true) :
    (clean_lines_pre df).getCol "saldo_disponible"
      = ((apply_aliases df linesAliases).getCol "saldo_disponible").map toNumberCell := by
  unfold clean_lines_pre clean_text coerce_date
  rw [DF.getCol_mapCol_ne _ _ _ _ (by decide),
    DF.getCol_mapCol_self _ _ _ (by simpa only [DF.hasCol_mapCol] using h),
    DF.getCol_mapCol_ne _ _ _ _ (by decide), DF.getCol_mapCol_ne _ _ _ _ (by decide),
    DF.getCol_mapCol_ne _ _ _ _ (by decide), DF.getCol_mapCol_ne _ _ _ _ (by decide)]

theorem getCol_clean_lines_pre_mu (df : DF)
    (h : (apply_aliases df linesAliases).hasCol "monto_utilizado" = true) :
    (clean_lines_pre df).getCol "monto_utilizado"
      = ((apply_aliases df linesAliases).getCol "monto_utilizado").map toNumberCell := by
  unfold clean_lines_pre clean_text coerce_date
  rw [DF.getCol_mapCol_self _ _ _ (by simpa only [DF.hasCol_mapCol] using h),
    DF.getCol_mapCol_ne _ _ _ _ (by decide), DF.getCol_mapCol_ne _ _ _ _ (by decide),
    DF.getCol_mapCol_ne _ _ _ _ (by decide), DF.getCol_mapCol_ne _ _ _ _ (by decide),
    DF.getCol_mapCol_ne _ _ _ _ (by decide)]

/-! ## The derived-field block of `clean_lines` -/

theorem derive_hasCol_mu (d : DF) :
    (clean_lines_derive d).hasCol "monto_utilizado"
      = (d.hasCol "monto_utilizado"
          || (d.hasCol "monto_aprobado" && d.hasCol "saldo_disponible")) := by
  unfold clean_lines_derive
  by_cases hma : d.hasCol "monto_aprobado" = true
  · by_cases hmu : d.hasCol "monto_utilizado" = true
    · simp [hma, hmu, DF.hasCol_setCol]
    · by_cases hsaldo : d.hasCol "saldo_disponible" = true
      · simp [hma, hmu, hsaldo, DF.hasCol_setCol]
      · simp [hma, hmu, hsaldo, DF.hasCol_setCol]
  · simp [hma, Bool.not_eq_true _ ▸ hma]

theorem derive_getCol_mu_of_derived (d : DF)
    (hma : d.hasCol "monto_aprobado" = true)
    (hsaldo : d.hasCol "saldo_disponible" = true)
    (hmu : d.hasCol "monto_utilizado" = false) :
    (clean_lines_derive d).getCol "monto_utilizado"
      = List.zipWith cellSub (d.getCol "monto_aprobado") (d.getCol "saldo_disponible") := by
  have hcond : (d.hasCol "saldo_disponible" && !d.hasCol "monto_utilizado") = true := by
    rw [hsaldo, hmu]; rfl
  have hmu2 : (d.setCol "monto_utilizado"
      (List.zipWith cellSub (d.getCol "monto_aprobado")
        (d.getCol "saldo_disponible"))).hasCol "monto_utilizado" = true := by
    rw [DF.hasCol_setCol]; simp
  unfold clean_lines_derive
  rw [if_pos hma, if_pos hcond, if_pos hmu2]
  rw [DF.getCol_setCol_ne _ _ _ _ (by decide), DF.getCol_setCol_self]

theorem derive_getCol_mu_of_present (d : DF)
    (hmu : d.hasCol "monto_utilizado" = true) :
    (clean_lines_derive d).getCol "monto_utilizado" = d.getCol "monto_utilizado" := by
  have hcond : ¬((d.hasCol "saldo_disponible" && !d.hasCol "monto_utilizado") = true) := by
    rw [hmu]; simp
  unfold clean_lines_derive
  by_cases hma : d.hasCol "monto_aprobado" = true
  · rw [if_pos hma, if_neg hcond, if_pos hmu,
      DF.getCol_setCol_ne _ _ _ _ (by decide)]
  · rw [if_neg hma]

theorem derive_hasCol_uso (d : DF) (h : d.hasCol "uso_pct" = false) :
    (clean_lines_derive d).hasCol "uso_pct"
      = (d.hasCol "monto_aprobado"
          && (d.hasCol "monto_utilizado" || d.hasCol "saldo_disponible")) := by
  unfold clean_lines_derive
  by_cases hma : d.hasCol "monto_aprobado" = true
  · by_cases hmu : d.hasCol "monto_utilizado" = true
    · simp [hma, hmu, DF.hasCol_setCol, h]
    · by_cases hsaldo : d.hasCol "saldo_disponible" = true
      · simp [hma, hmu, hsaldo, DF.hasCol_setCol, h]
      · simp [hma, hmu, hsaldo, DF.hasCol_setCol, h]
  · simp [hma, Bool.not_eq_true _ ▸ hma, h]

theorem derive_getCol_uso_of_present_mu (d : DF)
    (hma : d.hasCol "monto_aprobado" = true)
    (hmu : d.hasCol "monto_utilizado" = true) :
    (clean_lines_derive d).getCol "uso_pct"
      = List.zipWith usoPctCell (d.getCol "monto_utilizado") (d.getCol "monto_aprobado") := by
  have hcond : ¬((d.hasCol "saldo_disponible" && !d.hasCol "monto_utilizado") = true) := by
    rw [hmu]; simp
  unfold clean_lines_derive
  rw [if_pos hma, if_neg hcond, if_pos hmu, DF.getCol_setCol_self]

theorem derive_getCol_uso_of_derived (d : DF)
    (hma : d.hasCol "monto_aprobado" = true)
    (hsaldo : d.hasCol "saldo_disponible" = true)
    (hmu : d.hasCol "monto_utilizado" = false) :
    (clean_lines_derive d).getCol "uso_pct"
      = List.zipWith usoPctCell
          (List.zipWith cellSub (d.getCol "monto_aprobado") (d.getCol "saldo_disponible"))
          (d.getCol "monto_aprobado") := by
  have hcond : (d.hasCol "saldo_disponible" && !d.hasCol "monto_utilizado") = true := by
    rw [hsaldo, hmu]; rfl
  have hmu2 : (d.setCol "monto_utilizado"
      (List.zipWith cellSub (d.getCol "monto_aprobado")
        (d.getCol "saldo_disponible"))).hasCol "monto_utilizado" = true := by
    rw [DF.hasCol_setCol]; simp
  unfold clean_lines_derive
  rw [if_pos hma, if_pos hcond, if_pos hmu2, DF.getCol_setCol_self]
  rw [DF.getCol_setCol_self, DF.getCol_setCol_ne _ _ _ _ (by decide)]

/-! ## Character-pipeline lemmas for the idempotence of `normalize_colname`

The canonical output of `normalizeColList` contains only `[a-z0-9_]`
characters, never two adjacent underscores, and no underscore at either
end; each stage of a second pass is then the identity. -/

theorem allowed_not_space (c : Char) (h : isAllowedChar c = true) :
    isSpaceChar c = false := by
  simp only [isAllowedChar, Bool.or_eq_true, Bool.and_eq_true, decide_eq_true_eq,
    beq_iff_eq] at h
  simp only [isSpaceChar, Bool.or_eq_false_iff, beq_eq_false_iff_ne, ne_eq]
  omega

theorem allowed_pyLower_fixed (c : Char) (h : isAllowedChar c = true) :
    pyLowerChar c = c := by
  simp only [isAllowedChar, Bool.or_eq_true, Bool.and_eq_true, decide_eq_true_eq,
    beq_iff_eq] at h
  unfold pyLowerChar
  rw [if_neg (by omega)]

theorem allowed_underscore : isAllowedChar '_' = true := by decide

theorem dropWhile_eq_self_of_all {p : Char → Bool} {l : List Char}
    (h : ∀ c ∈ l, p c = false) : l.dropWhile p = l := by
  induction l with
  | nil => rfl
  | cons c cs ih =>
    rw [List.dropWhile_cons, if_neg (by simp [h c (List.mem_cons_self c cs)])]

theorem head?_dropWhile {p : Char → Bool} {l : List Char} {c : Char}
    (h : (l.dropWhile p).head? = some c) : p c = false := by
  induction l with
  | nil => simp at h
  | cons d ds ih =>
    rw [List.dropWhile_cons] at h
    by_cases hd : p d = true
    · rw [if_pos hd] at h
      exact ih h
    · rw [if_neg hd] at h
      simp only [List.head?_cons, Option.some.injEq] at h
      subst h
      simpa using hd

theorem mem_dropWhile {p : Char → Bool} {l : List Char} {c : Char}
    (h : c ∈ l.dropWhile p) : c ∈ l := by
  induction l with
  | nil => simpa using h
  | cons d ds ih =>
    rw [List.dropWhile_cons] at h
    by_cases hd : p d = true
    · rw [if_pos hd] at h
      exact List.mem_cons_of_mem d (ih h)
    · rwa [if_neg hd] at h

theorem chain'_dropWhile {R : Char → Char → Prop} {p : Char → Bool} {l : List Char}
    (h : List.Chain' R l) : List.Chain' R (l.dropWhile p) := by
  induction l with
  | nil => exact h
  | cons d ds ih =>
    rw [List.dropWhile_cons]
    by_cases hd : p d = true
    · rw [if_pos hd]
      exact ih ((List.chain'_cons'.mp h).2)
    · rwa [if_neg hd]

theorem dropTrailing_eq_self_of_all {p : Char → Bool} {l : List Char}
    (h : ∀ c ∈ l, p c = false) : dropTrailing p l = l := by
  induction l with
  | nil => rfl
  | cons c cs ih =>
    have hcs : dropTrailing p cs = cs := ih (fun d hd => h d (List.mem_cons_of_mem c hd))
    unfold dropTrailing
    rw [hcs, if_neg (by simp [h c (List.mem_cons_self c cs)])]

theorem dropTrailing_eq_self_of_last {p : Char → Bool} {l : List Char}
    (h : ∀ c, l.getLast? = some c → p c = false) : dropTrailing p l = l := by
  induction l with
  | nil => rfl
  | cons c cs ih =>
    unfold dropTrailing
    cases cs with
    | nil =>
      have hc : p c = false := h c rfl
      simp [dropTrailing, hc]
    | cons d ds =>
      have hcs : dropTrailing p (d :: ds) = d :: ds := by
        refine ih (fun e he => h e ?_)
        rwa [List.getLast?_cons_cons]
      rw [hcs]
      simp

theorem dropTrailing_cons (p : Char → Bool) (c : Char) (cs : List Char) :
    dropTrailing p (c :: cs)
      = if ((dropTrailing p cs).isEmpty && p c) = true then []
        else c :: dropTrailing p cs := rfl

theorem getLast?_dropTrailing {p : Char → Bool} {l : List Char} {c : Char}
    (h : (dropTrailing p l).getLast? = some c) : p c = false := by
  induction l with
  | nil => simp [dropTrailing] at h
  | cons d ds ih =>
    rw [dropTrailing_cons] at h
    by_cases hemp : ((dropTrailing p ds).isEmpty && p d) = true
    · rw [if_pos hemp] at h
      simp at h
    · rw [if_neg hemp] at h
      cases hds : dropTrailing p ds with
      | nil =>
        rw [hds] at h hemp
        simp only [List.getLast?_singleton, Option.some.injEq] at h
        subst h
        simpa using hemp
      | cons e es =>
        rw [hds] at h
        rw [List.getLast?_cons_cons] at h
        exact ih (by rw [hds]; exact h)

theorem head?_dropTrailing {p : Char → Bool} {l : List Char} {c : Char}
    (h : (dropTrailing p l).head? = some c) : l.head? = some c := by
  cases l with
  | nil => simp [dropTrailing] at h
  | cons d ds =>
    rw [dropTrailing_cons] at h
    by_cases hemp : ((dropTrailing p ds).isEmpty && p d) = true
    · rw [if_pos hemp] at h
      simp at h
    · rw [if_neg hemp] at h
      simp only [List.head?_cons, Option.some.injEq] at h
      subst h
      rfl

theorem mem_dropTrailing {p : Char → Bool} {l : List Char} {c : Char}
    (h : c ∈ dropTrailing p l) : c ∈ l := by
  induction l with
  | nil => simpa [dropTrailing] using h
  | cons d ds ih =>
    rw [dropTrailing_cons] at h
    by_cases hemp : ((dropTrailing p ds).isEmpty && p d) = true
    · rw [if_pos hemp] at h
      simp at h
    · rw [if_neg hemp] at h
      rcases List.mem_cons.mp h with h | h
      · exact h ▸ List.mem_cons_self d ds
      · exact List.mem_cons_of_mem d (ih h)

theorem chain'_dropTrailing {R : Char → Char → Prop} {p : Char → Bool} {l : List Char}
    (h : List.Chain' R l) : List.Chain' R (dropTrailing p l) := by
  induction l with
  | nil => exact h
  | cons d ds ih =>
    rw [dropTrailing_cons]
    by_cases hemp : ((dropTrailing p ds).isEmpty && p d) = true
    · rw [if_pos hemp]
      exact List.chain'_nil
    · rw [if_neg hemp]
      rw [List.chain'_cons']
      refine ⟨?_, ih ((List.chain'_cons'.mp h).2)⟩
      intro y hy
      have : ds.head? = some y := head?_dropTrailing hy
      exact (List.chain'_cons'.mp h).1 y this

theorem stripList_eq_self_of_all {p : Char → Bool} {l : List Char}
    (h : ∀ c ∈ l, p c = false) : stripList p l = l := by
  unfold stripList
  rw [dropWhile_eq_self_of_all h, dropTrailing_eq_self_of_all h]

theorem stripList_eq_self_of_ends {p : Char → Bool} {l : List Char}
    (hh : ∀ c, l.head? = some c → p c = false)
    (hl : ∀ c, l.getLast? = some c → p c = false) : stripList p l = l := by
  unfold stripList
  have hdw : l.dropWhile p = l := by
    cases l with
    | nil => rfl
    | cons c cs =>
      rw [List.dropWhile_cons, if_neg (by simp [hh c rfl])]
  rw [hdw, dropTrailing_eq_self_of_last hl]

theorem head?_stripList {p : Char → Bool} {l : List Char} {c : Char}
    (h : (stripList p l).head? = some c) : p c = false := by
  unfold stripList at h
  exact head?_dropWhile (head?_dropTrailing h)

theorem getLast?_stripList {p : Char → Bool} {l : List Char} {c : Char}
    (h : (stripList p l).getLast? = some c) : p c = false :=
  getLast?_dropTrailing h

theorem mem_stripList {p : Char → Bool} {l : List Char} {c : Char}
    (h : c ∈ stripList p l) : c ∈ l :=
  mem_dropWhile (mem_dropTrailing h)

theorem chain'_stripList {R : Char → Char → Prop} {p : Char → Bool} {l : List Char}
    (h : List.Chain' R l) : List.Chain' R (stripList p l) :=
  chain'_dropTrailing (chain'_dropWhile h)

theorem collapseRuns_cons_neg {p : Char → Bool} {r c : Char} {cs : List Char}
    (hc : p c = false) : collapseRuns p r (c :: cs) = c :: collapseRuns p r cs := by
  cases cs with
  | nil => simp [collapseRuns, hc]
  | cons d ds => simp [collapseRuns, hc]

theorem collapseRuns_eq_self_of_all {p : Char → Bool} {r : Char} {l : List Char}
    (h : ∀ c ∈ l, p c = false) : collapseRuns p r l = l := by
  induction l with
  | nil => rfl
  | cons c cs ih =>
    rw [collapseRuns_cons_neg (h c (List.mem_cons_self c cs))]
    rw [ih (fun d hd => h d (List.mem_cons_of_mem c hd))]

theorem mem_collapseRuns {p : Char → Bool} {r : Char} {l : List Char} {c : Char}
    (h : c ∈ collapseRuns p r l) : c = r ∨ c ∈ l := by
  induction l with
  | nil => simpa [collapseRuns] using h
  | cons d ds ih =>
    cases ds with
    | nil =>
      by_cases hd : p d = true
      · simp only [collapseRuns, hd, if_true] at h
        simp only [List.mem_singleton] at h
        exact Or.inl h
      · rw [collapseRuns_cons_neg (by simpa using hd)] at h
        simp only [collapseRuns, List.mem_singleton] at h
        exact Or.inr (by simp [h])
    | cons e es =>
      by_cases hd : p d = true
      · by_cases he : p e = true
        · simp only [collapseRuns, hd, he, if_true] at h
          rcases ih h with h | h
          · exact Or.inl h
          · exact Or.inr (List.mem_cons_of_mem d h)
        · simp only [collapseRuns, hd, he, if_true, if_false] at h
          rcases List.mem_cons.mp h with h | h
          · exact Or.inl h
          · rcases ih h with h | h
            · exact Or.inl h
            · exact Or.inr (List.mem_cons_of_mem d h)
      · rw [collapseRuns_cons_neg (by simpa using hd)] at h
        rcases List.mem_cons.mp h with h | h
        · exact Or.inr (h ▸ List.mem_cons_self d (e :: es))
        · rcases ih h with h | h
          · exact Or.inl h
          · exact Or.inr (List.mem_cons_of_mem d h)

theorem head?_collapseRuns_neg {p : Char → Bool} {r d : Char} {cs : List Char}
    (hd : p d = false) :
    (collapseRuns p r (d :: cs)).head? = some d := by
  rw [collapseRuns_cons_neg hd]
  rfl

theorem chain'_collapseRuns {p : Char → Bool} {r : Char} (l : List Char) :
    List.Chain' (fun a b => ¬(p a = true ∧ p b = true)) (collapseRuns p r l) := by
  induction l with
  | nil => exact List.chain'_nil
  | cons d ds ih =>
    cases ds with
    | nil =>
      by_cases hd : p d = true
      · simp only [collapseRuns, hd, if_true]
        exact List.chain'_singleton r
      · simp only [collapseRuns, hd, if_false]
        exact List.chain'_singleton d
    | cons e es =>
      by_cases hd : p d = true
      · by_cases he : p e = true
        · simpa only [collapseRuns, hd, he, if_true] using ih
        · have he' : p e = false := by simpa using he
          simp only [collapseRuns, hd, he', if_true]
          rw [if_neg Bool.false_ne_true]
          rw [List.chain'_cons']
          refine ⟨?_, ih⟩
          intro y hy
          rw [head?_collapseRuns_neg he'] at hy
          simp only [Option.mem_def, Option.some.injEq] at hy
          subst hy
          simp [he']
      · rw [collapseRuns_cons_neg (by simpa using hd)]
        rw [List.chain'_cons']
        refine ⟨?_, ih⟩
        intro y _
        simp [hd]

theorem collapseRuns_eq_self_of_chain' {p : Char → Bool} {r : Char} {l : List Char}
    (hr : ∀ c ∈ l, p c = true → c = r)
    (h : List.Chain' (fun a b => ¬(p a = true ∧ p b = true)) l) :
    collapseRuns p r l = l := by
  induction l with
  | nil => rfl
  | cons d ds ih =>
    cases ds with
    | nil =>
      by_cases hd : p d = true
      · simp only [collapseRuns, hd, if_true]
        rw [hr d (List.mem_cons_self d []) hd]
      · rw [collapseRuns_cons_neg (by simpa using hd)]
        rfl
    | cons e es =>
      have hrest : collapseRuns p r (e :: es) = e :: es :=
        ih (fun c hc hp => hr c (List.mem_cons_of_mem d hc) hp)
          ((List.chain'_cons'.mp h).2)
      by_cases hd : p d = true
      · have he : p e = false := by
          have := (List.chain'_cons'.mp h).1 e rfl
          by_contra hcon
          exact this ⟨hd, by simpa using hcon⟩
        simp only [collapseRuns, hd, he, if_true]
        rw [if_neg Bool.false_ne_true]
        rw [hrest, hr d (List.mem_cons_self d (e :: es)) hd]
      · rw [collapseRuns_cons_neg (by simpa using hd), hrest]

/-- Every character of a normalized column name lies in `[a-z0-9_]`. -/
theorem normalizeColList_chars (l : List Char) :
    ∀ c ∈ normalizeColList l, isAllowedChar c = true := by
  intro c hc
  unfold normalizeColList at hc
  have h1 := mem_stripList hc
  rcases mem_collapseRuns h1 with h | h
  · exact h ▸ allowed_underscore
  · exact List.mem_filter.mp h |>.2

/-- A normalized column name never contains two adjacent underscores. -/
theorem normalizeColList_chain (l : List Char) :
    List.Chain' (fun a b => ¬((a == '_') = true ∧ (b == '_') = true))
      (normalizeColList l) := by
  unfold normalizeColList
  exact chain'_stripList (chain'_collapseRuns _)

/-- A normalized column name does not start with an underscore. -/
theorem normalizeColList_head (l : List Char) :
    ∀ c, (normalizeColList l).head? = some c → (c == '_') = false := by
  intro c hc
  unfold normalizeColList at hc
  exact head?_stripList (p := fun c => c == '_') hc

/-- A normalized column name does not end with an underscore. -/
theorem normalizeColList_last (l : List Char) :
    ∀ c, (normalizeColList l).getLast? = some c → (c == '_') = false := by
  intro c hc
  unfold normalizeColList at hc
  exact getLast?_stripList (p := fun c => c == '_') hc

theorem normalizeColList_idem (l : List Char) :
    normalizeColList (normalizeColList l) = normalizeColList l := by
  set m := normalizeColList l with hm
  have hchars : ∀ c ∈ m, isAllowedChar c = true := by
    rw [hm]
    exact normalizeColList_chars l
  have hchain : List.Chain' (fun a b => ¬((a == '_') = true ∧ (b == '_') = true)) m := by
    rw [hm]
    exact normalizeColList_chain l
  have hhead : ∀ c, m.head? = some c → (c == '_') = false := by
    rw [hm]
    exact normalizeColList_head l
  have hlast : ∀ c, m.getLast? = some c → (c == '_') = false := by
    rw [hm]
    exact normalizeColList_last l
  have hnospace : ∀ c ∈ m, isSpaceChar c = false :=
    fun c hc => allowed_not_space c (hchars c hc)
  unfold normalizeColList
  rw [stripList_eq_self_of_all hnospace]
  rw [List.map_congr_left (fun c hc => allowed_pyLower_fixed c (hchars c hc))]
  rw [show (fun c : Char => c) = id from rfl, List.map_id]
  rw [collapseRuns_eq_self_of_all hnospace]
  rw [List.filter_eq_self.mpr hchars]
  rw [collapseRuns_eq_self_of_chain' (fun c _ hp => by simpa using hp) hchain]
  exact stripList_eq_self_of_ends hhead hlast

/-! ## Claims -/

/-- C4: `normalize_colname` is a total function on strings (it is a Lean
function) and idempotent: normalizing an already-normalized column name
returns it unchanged. -/
theorem normalize_colname_idempotent (x : String) :
    normalize_colname (normalize_colname x) = normalize_colname x := by
  show (⟨normalizeColList (normalize_colname x).toList⟩ : String) = _
  have h : (normalize_colname x).toList = normalizeColList x.toList := rfl
  rw [h, normalizeColList_idem]
  rfl

/-- C1 (counterexample): the spec's test table says `"1.234,56" → 1234.56`,
but `to_number` sees both a comma and a period, drops the comma as a
thousands separator and parses `1.23456`. -/
theorem to_number_european_counterexample :
    toNumberStr "1.234,56" = some (1.23456 : ℚ) ∧ (1.23456 : ℚ) ≠ (1234.56 : ℚ) := by
  constructor
  · have h : toNumberParts "1.234,56" = some (false, 1, 23456, 5) := by decide
    rw [toNumberStr, h]
    simp only [Option.map_some']
    norm_num [ratOfParts]
  · norm_num

/-- C1 (amended): `to_number` maps the spec's test inputs to
`"S/ 1,230.50" → 1230.50`, `"1.234,56" → 1.23456` (comma dropped as a
thousands separator because both separators are present),
`"1234,56" → 1234.56`, `"abc" → missing`, `"" → missing`,
`"-45.5" → -45.5`. -/
theorem to_number_spec_examples :
    toNumberStr "S/ 1,230.50" = some (1230.50 : ℚ)
    ∧ toNumberStr "1.234,56" = some (1.23456 : ℚ)
    ∧ toNumberStr "1234,56" = some (1234.56 : ℚ)
    ∧ toNumberStr "abc" = none
    ∧ toNumberStr "" = none
    ∧ toNumberStr "-45.5" = some (-45.5 : ℚ) := by
  refine ⟨?_, ?_, ?_, by decide, by decide, ?_⟩
  · have h : toNumberParts "S/ 1,230.50" = some (false, 1230, 50, 2) := by decide
    rw [toNumberStr, h]
    simp only [Option.map_some']
    norm_num [ratOfParts]
  · have h : toNumberParts "1.234,56" = some (false, 1, 23456, 5) := by decide
    rw [toNumberStr, h]
    simp only [Option.map_some']
    norm_num [ratOfParts]
  · have h : toNumberParts "1234,56" = some (false, 1234, 56, 2) := by decide
    rw [toNumberStr, h]
    simp only [Option.map_some']
    norm_num [ratOfParts]
  · have h : toNumberParts "-45.5" = some (true, 45, 5, 1) := by decide
    rw [toNumberStr, h]
    simp only [Option.map_some']
    norm_num [ratOfParts]

/-- C5 (counterexample): with the alias `entidad → esfs`, a table whose
columns are `entidad` and `esfs` comes out of `apply_aliases` with TWO
columns both labelled `esfs` — the collision is not resolved to a single
column by last-write-wins. -/
theorem apply_aliases_collision_counterexample :
    (apply_aliases ⟨[("entidad", [Cell.str "A"]), ("esfs", [Cell.str "B"])]⟩
        [("entidad", "esfs")]).names = ["esfs", "esfs"]
    ∧ (apply_aliases ⟨[("entidad", [Cell.str "A"]), ("esfs", [Cell.str "B"])]⟩
        [("entidad", "esfs")]).cols.length = 2 := by
  constructor
  · decide
  · decide

/-- C5 (amended): `apply_aliases` never crashes and never drops a column:
each column label is renamed independently through the normalized alias
map (all columns kept in original order), so a collision yields duplicate
column labels rather than a single column. -/
theorem apply_aliases_cols_spec (df : DF) (aliases : List (String × String)) :
    (apply_aliases df aliases).cols
      = df.cols.map (fun p =>
          ((lookupLast (renameMap aliases) (normalize_colname p.1)).getD
              (normalize_colname p.1), p.2)) := by
  simp only [apply_aliases, normalize_columns]
  rw [List.map_map]
  rfl

/-- C6: `apply_aliases` with an empty alias mapping coincides with
`normalize_columns`, i.e. with normalizing every column label alone. -/
theorem apply_aliases_empty_eq_normalize_columns (df : DF) :
    apply_aliases df [] = normalize_columns df := by
  simp only [apply_aliases, normalize_columns, renameMap, lookupLast]
  simp [List.map_map]

/-- C7 (counterexample): the Compliance cleaner also collapses internal
whitespace runs (via `clean_text`), so an estado value `"x  y"` comes out
as `"x y"`, while trimming and lowercasing alone would leave `"x  y"`
unchanged. -/
theorem clean_splaft_estado_whitespace_counterexample :
    (clean_splaft ⟨[("estado", [Cell.str "x  y"])]⟩).getCol "estado" = [Cell.str "x y"]
    ∧ (⟨(stripList isSpaceChar ("x  y" : String).toList).map pyLowerChar⟩ : String) = "x  y"
    ∧ ("x y" : String) ≠ "x  y" := by
  refine ⟨by decide, by decide, by decide⟩

/-- C7 (amended): when the aliased table has an `estado` column,
`clean_splaft` maps every estado cell through text cleaning
(trim + internal-whitespace collapse) followed by lowercasing and the
fixed synonym table `enviado→recibido`, `ok→aprobado`, `aprobada→aprobado`,
`observada→observado`; values outside the table pass through otherwise
unchanged: `"Enviado"→"recibido"`, `"OK"→"aprobado"`,
`"Pendiente"→"pendiente"`. -/
theorem clean_splaft_estado_spec (df : DF)
    (h : (apply_aliases df splaftAliases).hasCol "estado" = true) :
    (clean_splaft df).getCol "estado"
      = ((apply_aliases df splaftAliases).getCol "estado").map
          (fun c => estadoCanonCell (cleanTextCell false c))
    ∧ estadoCanonCell (cleanTextCell false (Cell.str "Enviado")) = Cell.str "recibido"
    ∧ estadoCanonCell (cleanTextCell false (Cell.str "OK")) = Cell.str "aprobado"
    ∧ estadoCanonCell (cleanTextCell false (Cell.str "Pendiente")) = Cell.str "pendiente" := by
  refine ⟨?_, by decide, by decide, by decide⟩
  unfold clean_splaft clean_text coerce_date
  rw [if_pos (by simpa only [DF.hasCol_mapCol] using h)]
  rw [DF.getCol_setCol_self]
  rw [DF.getCol_mapCol_ne _ _ _ _ (by decide),
    DF.getCol_mapCol_self _ _ _ (by simpa only [DF.hasCol_mapCol] using h),
    DF.getCol_mapCol_ne _ _ _ _ (by decide), DF.getCol_mapCol_ne _ _ _ _ (by decide),
    List.map_map]
  rfl

/-- C7 witness: the amended theorem applied to the one-row table
`estado = "Enviado"`, whose cleaned estado column is `["recibido"]`. -/
theorem clean_splaft_estado_spec_witness :
    (apply_aliases ⟨[("estado", [Cell.str "Enviado"])]⟩ splaftAliases).hasCol "estado" = true
    ∧ (clean_splaft ⟨[("estado", [Cell.str "Enviado"])]⟩).getCol "estado"
        = [Cell.str "recibido"] := by
  refine ⟨by decide, ?_⟩
  rw [(clean_splaft_estado_spec ⟨[("estado", [Cell.str "Enviado"])]⟩ (by decide)).1]
  decide

/-- C9 (counterexample): `clean_text` does not preserve missing-ness — a
missing cell is stringified by `astype(str)` and comes out as the literal
text `"nan"`. -/
theorem clean_text_missing_counterexample :
    (clean_text ⟨[("x", [Cell.missing])]⟩ "x" false).getCol "x" = [Cell.str "nan"]
    ∧ Cell.str "nan" ≠ Cell.missing := by
  refine ⟨by decide, by decide⟩

/-- C9 (amended): `clean_text` stringifies every cell of a present column,
so a missing value becomes the literal text `"nan"` (`"NAN"` under
`upper`), not a missing value. -/
theorem clean_text_stringifies_missing (df : DF) (col : String) (upper : Bool)
    (h : df.hasCol col = true) :
    (clean_text df col upper).getCol col = (df.getCol col).map (cleanTextCell upper)
    ∧ cleanTextCell upper Cell.missing
        = Cell.str (if upper then "NAN" else "nan") := by
  constructor
  · unfold clean_text
    exact DF.getCol_mapCol_self df col _ h
  · cases upper <;> decide

/-- C9 witness: the amended theorem applied to a one-column table holding
a single missing cell. -/
theorem clean_text_stringifies_missing_witness :
    (⟨[("x", [Cell.missing])]⟩ : DF).hasCol "x" = true
    ∧ (clean_text ⟨[("x", [Cell.missing])]⟩ "x" false).getCol "x" = [Cell.str "nan"] := by
  refine ⟨by decide, ?_⟩
  rw [(clean_text_stringifies_missing ⟨[("x", [Cell.missing])]⟩ "x" false (by decide)).1]
  decide

/-- C10: the `uso_pct` division is total — dividing any cell by a zero
`monto_aprobado` yields an infinity or a missing value, never an
exception; concretely, `clean_lines` on `monto_aprobado = 0`,
`monto_utilizado = 600` produces `uso_pct = +inf`. -/
theorem uso_pct_division_by_zero_safe :
    (∀ mu : Cell, usoPctCell mu (Cell.num 0) = Cell.inf
      ∨ usoPctCell mu (Cell.num 0) = Cell.ninf
      ∨ usoPctCell mu (Cell.num 0) = Cell.missing)
    ∧ (clean_lines ⟨[("monto_aprobado", [Cell.num 0]),
        ("monto_utilizado", [Cell.num 600])]⟩).getCol "uso_pct" = [Cell.inf] := by
  constructor
  · intro mu
    cases mu with
    | num q =>
      rcases lt_trichotomy q 0 with hq | hq | hq
      · right; left
        simp [usoPctCell, cellDiv, cellMul100, hq, not_lt.mpr hq.le]
      · subst hq
        right; right
        simp [usoPctCell, cellDiv, cellMul100]
      · left
        simp [usoPctCell, cellDiv, cellMul100, hq, not_lt.mpr hq.le]
    | str s => right; right; rfl
    | inf =>
      left
      simp [usoPctCell, cellDiv, cellMul100]
    | ninf =>
      right; left
      simp [usoPctCell, cellDiv, cellMul100]
    | date y m d => right; right; rfl
    | missing => right; right; rfl
  · decide

/-- C2: `clean_lines` ends up with a `monto_utilizado` column exactly when
the aliased input supplies one or both `monto_aprobado` and
`saldo_disponible` are present; when derived it equals
`monto_aprobado - saldo_disponible` row by row (on the parsed columns),
and a supplied `monto_utilizado` is parsed but never overwritten. -/
theorem clean_lines_monto_utilizado_spec (df : DF) :
    ((clean_lines df).hasCol "monto_utilizado"
        = ((apply_aliases df linesAliases).hasCol "monto_utilizado"
            || ((apply_aliases df linesAliases).hasCol "monto_aprobado"
                && (apply_aliases df linesAliases).hasCol "saldo_disponible")))
    ∧ ((apply_aliases df linesAliases).hasCol "monto_utilizado" = false →
        (apply_aliases df linesAliases).hasCol "monto_aprobado" = true →
        (apply_aliases df linesAliases).hasCol "saldo_disponible" = true →
        (clean_lines df).getCol "monto_utilizado"
          = List.zipWith cellSub
              (((apply_aliases df linesAliases).getCol "monto_aprobado").map toNumberCell)
              (((apply_aliases df linesAliases).getCol "saldo_disponible").map toNumberCell))
    ∧ ((apply_aliases df linesAliases).hasCol "monto_utilizado" = true →
        (clean_lines df).getCol "monto_utilizado"
          = ((apply_aliases df linesAliases).getCol "monto_utilizado").map toNumberCell) := by
  have hPx := hasCol_clean_lines_pre df
  refine ⟨?_, ?_, ?_⟩
  · unfold clean_lines
    rw [derive_hasCol_mu, hPx, hPx, hPx]
  · intro hmu hma hsaldo
    unfold clean_lines
    rw [derive_getCol_mu_of_derived _ (by rw [hPx]; exact hma)
      (by rw [hPx]; exact hsaldo) (by rw [hPx]; exact hmu)]
    rw [getCol_clean_lines_pre_ma df hma, getCol_clean_lines_pre_saldo df hsaldo]
  · intro hmu
    unfold clean_lines
    rw [derive_getCol_mu_of_present _ (by rw [hPx]; exact hmu)]
    exact getCol_clean_lines_pre_mu df hmu

/-- C2 witness: the derivation case (`monto_aprobado = 1000`,
`saldo_disponible = 400`, no `monto_utilizado` → derived 600) and the
non-overwrite case (supplied `monto_utilizado = 700` stays 700). -/
theorem clean_lines_monto_utilizado_spec_witness :
    ((apply_aliases ⟨[("monto_aprobado", [Cell.num 1000]),
        ("saldo_disponible", [Cell.num 400])]⟩ linesAliases).hasCol "monto_utilizado" = false
      ∧ (clean_lines ⟨[("monto_aprobado", [Cell.num 1000]),
          ("saldo_disponible", [Cell.num 400])]⟩).getCol "monto_utilizado"
          = [Cell.num 600])
    ∧ (clean_lines ⟨[("monto_aprobado", [Cell.num 1000]),
        ("saldo_disponible", [Cell.num 400]),
        ("monto_utilizado", [Cell.num 700])]⟩).getCol "monto_utilizado"
        = [Cell.num 700] := by
  refine ⟨⟨by decide, ?_⟩, ?_⟩
  · rw [(clean_lines_monto_utilizado_spec ⟨[("monto_aprobado", [Cell.num 1000]),
      ("saldo_disponible", [Cell.num 400])]⟩).2.1 (by decide) (by decide) (by decide)]
    have hma : ((apply_aliases ⟨[("monto_aprobado", [Cell.num 1000]),
        ("saldo_disponible", [Cell.num 400])]⟩ linesAliases).getCol
          "monto_aprobado").map toNumberCell = [Cell.num 1000] := by decide
    have hsa : ((apply_aliases ⟨[("monto_aprobado", [Cell.num 1000]),
        ("saldo_disponible", [Cell.num 400])]⟩ linesAliases).getCol
          "saldo_disponible").map toNumberCell = [Cell.num 400] := by decide
    rw [hma, hsa]
    show [cellSub (Cell.num 1000) (Cell.num 400)] = [Cell.num 600]
    simp only [cellSub, List.cons.injEq, and_true]
    norm_num
  · rw [(clean_lines_monto_utilizado_spec ⟨[("monto_aprobado", [Cell.num 1000]),
      ("saldo_disponible", [Cell.num 400]),
      ("monto_utilizado", [Cell.num 700])]⟩).2.2 (by decide)]
    decide

/-- C3 (counterexample): a table that already carries a `uso_pct` column
and nothing else passes through `clean_lines` untouched, so the output
has `uso_pct` although neither `monto_utilizado` nor `monto_aprobado` is
present — `uso_pct` is not produced "exactly when" both are present. -/
theorem clean_lines_preexisting_uso_pct_counterexample :
    (clean_lines ⟨[("uso_pct", [Cell.num 1])]⟩).hasCol "uso_pct" = true
    ∧ (clean_lines ⟨[("uso_pct", [Cell.num 1])]⟩).hasCol "monto_aprobado" = false
    ∧ (clean_lines ⟨[("uso_pct", [Cell.num 1])]⟩).hasCol "monto_utilizado" = false := by
  refine ⟨by decide, by decide, by decide⟩

/-- C3 (amended): for inputs that do not already carry a `uso_pct` column,
`clean_lines` produces `uso_pct` exactly when `monto_aprobado` and a
(supplied or derivable) `monto_utilizado` are present, with per-row value
`monto_utilizado / monto_aprobado * 100` — an exact quotient, not clamped
to any range. -/
theorem clean_lines_uso_pct_spec (df : DF)
    (h : (apply_aliases df linesAliases).hasCol "uso_pct" = false) :
    ((clean_lines df).hasCol "uso_pct"
        = ((apply_aliases df linesAliases).hasCol "monto_aprobado"
            && ((apply_aliases df linesAliases).hasCol "monto_utilizado"
                || (apply_aliases df linesAliases).hasCol "saldo_disponible")))
    ∧ ((apply_aliases df linesAliases).hasCol "monto_aprobado" = true →
        (apply_aliases df linesAliases).hasCol "monto_utilizado" = true →
        (clean_lines df).getCol "uso_pct"
          = List.zipWith usoPctCell
              (((apply_aliases df linesAliases).getCol "monto_utilizado").map toNumberCell)
              (((apply_aliases df linesAliases).getCol "monto_aprobado").map toNumberCell))
    ∧ ((apply_aliases df linesAliases).hasCol "monto_aprobado" = true →
        (apply_aliases df linesAliases).hasCol "monto_utilizado" = false →
        (apply_aliases df linesAliases).hasCol "saldo_disponible" = true →
        (clean_lines df).getCol "uso_pct"
          = List.zipWith usoPctCell
              (List.zipWith cellSub
                (((apply_aliases df linesAliases).getCol "monto_aprobado").map toNumberCell)
                (((apply_aliases df linesAliases).getCol "saldo_disponible").map toNumberCell))
              (((apply_aliases df linesAliases).getCol "monto_aprobado").map toNumberCell)) := by
  have hPx := hasCol_clean_lines_pre df
  refine ⟨?_, ?_, ?_⟩
  · unfold clean_lines
    rw [derive_hasCol_uso _ (by rw [hPx]; exact h), hPx, hPx, hPx]
  · intro hma hmu
    unfold clean_lines
    rw [derive_getCol_uso_of_present_mu _ (by rw [hPx]; exact hma) (by rw [hPx]; exact hmu)]
    rw [getCol_clean_lines_pre_ma df hma, getCol_clean_lines_pre_mu df hmu]
  · intro hma hmu hsaldo
    unfold clean_lines
    rw [derive_getCol_uso_of_derived _ (by rw [hPx]; exact hma)
      (by rw [hPx]; exact hsaldo) (by rw [hPx]; exact hmu)]
    rw [getCol_clean_lines_pre_ma df hma, getCol_clean_lines_pre_saldo df hsaldo]

/-- C3 witness: `monto_aprobado = 100` with supplied `monto_utilizado = 150`
gives `uso_pct = 150` — computed and unclamped above 100. -/
theorem clean_lines_uso_pct_spec_witness :
    (apply_aliases ⟨[("monto_aprobado", [Cell.num 100]),
        ("monto_utilizado", [Cell.num 150])]⟩ linesAliases).hasCol "uso_pct" = false
    ∧ (clean_lines ⟨[("monto_aprobado", [Cell.num 100]),
        ("monto_utilizado", [Cell.num 150])]⟩).getCol "uso_pct" = [Cell.num 150] := by
  refine ⟨by decide, ?_⟩
  rw [(clean_lines_uso_pct_spec ⟨[("monto_aprobado", [Cell.num 100]),
    ("monto_utilizado", [Cell.num 150])]⟩ (by decide)).2.1 (by decide) (by decide)]
  have hmu : ((apply_aliases ⟨[("monto_aprobado", [Cell.num 100]),
      ("monto_utilizado", [Cell.num 150])]⟩ linesAliases).getCol
        "monto_utilizado").map toNumberCell = [Cell.num 150] := by decide
  have hma : ((apply_aliases ⟨[("monto_aprobado", [Cell.num 100]),
      ("monto_utilizado", [Cell.num 150])]⟩ linesAliases).getCol
        "monto_aprobado").map toNumberCell = [Cell.num 100] := by decide
  rw [hmu, hma]
  show [usoPctCell (Cell.num 150) (Cell.num 100)] = [Cell.num 150]
  simp only [usoPctCell, cellDiv, cellMul100]
  norm_num

/-- C8: cleaning steps are total and absorb malformed data: a step on an
absent column is a no-op (`clean_text`, `coerce_date`, the numeric-parse
loop), and unparseable numeric or date cells become explicit missing
values — never a default number and never an error. -/
theorem cleaners_absent_noop_and_malformed_missing (df : DF) (c : String) (u : Bool)
    (h : df.hasCol c = false) :
    clean_text df c u = df
    ∧ coerce_date df c = df
    ∧ df.mapCol c toNumberCell = df
    ∧ (∀ s : String, toNumberStr s = none → toNumberCell (Cell.str s) = Cell.missing)
    ∧ toNumberCell (Cell.str "abc") = Cell.missing
    ∧ toNumberCell Cell.missing = Cell.missing
    ∧ coerceDateCell (Cell.str "31/31/2024") = Cell.missing
    ∧ coerceDateCell (Cell.str "") = Cell.missing
    ∧ coerceDateCell Cell.missing = Cell.missing := by
  refine ⟨DF.mapCol_absent df c _ h, DF.mapCol_absent df c _ h, DF.mapCol_absent df c _ h,
    ?_, by decide, by decide, by decide, by decide, by decide⟩
  intro s hs
  simp [toNumberCell, hs]

/-- C8 witness: the no-op and missing-value guarantees at the table
`[("otra", [Cell.str "x"])]` and column `"fecha"`. -/
theorem cleaners_absent_noop_witness :
    (⟨[("otra", [Cell.str "x"])]⟩ : DF).hasCol "fecha" = false
    ∧ clean_text ⟨[("otra", [Cell.str "x"])]⟩ "fecha" false = ⟨[("otra", [Cell.str "x"])]⟩
    ∧ coerce_date ⟨[("otra", [Cell.str "x"])]⟩ "fecha" = ⟨[("otra", [Cell.str "x"])]⟩ := by
  have h := cleaners_absent_noop_and_malformed_missing
    ⟨[("otra", [Cell.str "x"])]⟩ "fecha" false (by decide)
  exact ⟨by decide, h.1, h.2.1⟩

end FMV
